import Mathlib

/-!
Verification of the CourtListener fetch client (src/client.py, src/main.py).

The embedding translates the source code into pure Lean functions:
HTTP attempt outcomes become an explicit `Outcome` type, the retry loop of
`CourtListenerClient._get_with_retries` becomes a fuel-indexed recursion
(the fuel bounds the loop, which in the source is bounded by MAX_RETRIES),
the pagination loop of `fetch_paginated` becomes an event-trace producer,
and `main` becomes a pure function from the parsed arguments, the since-file
content and the fetched record stream to the run's observable effects.
Durations use `ℚ` so that the default backoff factor 1.5 is exact.
-/

/-- JSON values, as decoded by `resp.json()`.  Numbers are modelled as
integers; no claim depends on fractional numeric values. -/
inductive Json where
  | null
  | str (s : String)
  | num (n : Int)
  | arr (elems : List Json)
  | obj (fields : List (String × Json))

/-- Association-list lookup, modelling Python `dict.get(key)` on a decoded
JSON object (objects decoded from JSON have distinct keys, so first-match
lookup agrees with the dict). -/
def lookupKey : List (String × Json) → String → Option Json
  | [], _ => none
  | (k, v) :: rest, key => if k = key then some v else lookupKey rest key

/-- Python `dict.get` applied to a decoded JSON value: `none` when the key is
absent (or when the value is not an object, where the source would raise). -/
def jsonGet : Json → String → Option Json
  | Json.obj kvs, key => lookupKey kvs key
  | _, _ => none

/-- Whether the decoded value is a JSON object (a Python `dict`). -/
def Json.isObj : Json → Bool
  | Json.obj _ => true
  | _ => false

/-- Python truthiness of a JSON value (`if not df: ...`). -/
def jsonFalsy : Json → Bool
  | Json.null => true
  | Json.str s => s = ""
  | Json.num n => n = 0
  | Json.arr xs => xs.isEmpty
  | Json.obj kvs => kvs.isEmpty

/-- Python `str()` applied to a decoded JSON value.  Strings map to
themselves and integers to their decimal form, the two cases any claim
exercises; for the remaining (truthy container / null) cases Python would
produce a `repr`-style rendering whose exact quoting is not modelled. -/
def jsonToStr : Json → String
  | Json.str s => s
  | Json.num n => toString n
  | Json.null => "None"
  | Json.arr _ => "[...]"
  | Json.obj _ => "\x7b...\x7d"

/-! ## client.py: attempt outcomes and the retry classifier -/

/-- The outcome of one `session.get` attempt, as seen by the `try` block of
`_get_with_retries`: an HTTP response arrived (with its status code and,
when the body is valid JSON, its decoded body), or the request raised a
connection error, a read timeout, or some other `requests.RequestException`. -/
inductive Outcome where
  | resp (status : Nat) (body : Option Json)
  | connError
  | readTimeout
  | otherFault

/-- The errors `_get_with_retries` can raise.  `retryError` is
`requests.exceptions.RetryError` (raised when the attempt budget is spent);
`httpError s` is the re-raised `requests.HTTPError` for a non-retryable
error status; `jsonDecodeError` is the `resp.json()` failure re-raised by
the `RequestException` handler; `attributeError` is the `data.keys()`
failure when the decoded body is not a dict; `requestException` is any
other re-raised `requests.RequestException`. -/
inductive ReqError where
  | retryError
  | httpError (status : Nat)
  | jsonDecodeError
  | attributeError
  | requestException
deriving DecidableEq

/-- How one attempt ends: a decoded JSON-object body is returned, an error
propagates, or the attempt falls through to the retry logic at the bottom
of the `while` loop. -/
inductive StepResult where
  | success (data : Json)
  | fatal (e : ReqError)
  | retryable

/-- The transient status codes of line 61 of client.py. -/
def retryableStatuses : List Nat := [429, 500, 502, 503, 504]

/-- Classification of one attempt outcome by the body of the `while` loop of
`_get_with_retries`: a retryable status (or a raised `ConnectionError` /
`ReadTimeout`) falls through to the retry logic; `raise_for_status` raises
(and the handler re-raises) for any other status in [400, 600); otherwise
the body is decoded (`resp.json()`, fatal on failure), `data.keys()` is
printed (fatal `AttributeError` when the body is not a dict), and the
response is returned. -/
def stepOutcome : Outcome → StepResult
  | Outcome.resp s b =>
    if s ∈ retryableStatuses then StepResult.retryable
    else if 400 ≤ s ∧ s < 600 then StepResult.fatal (ReqError.httpError s)
    else
      match b with
      | none => StepResult.fatal ReqError.jsonDecodeError
      | some j => if j.isObj then StepResult.success j else StepResult.fatal ReqError.attributeError
  | Outcome.connError => StepResult.retryable
  | Outcome.readTimeout => StepResult.retryable
  | Outcome.otherFault => StepResult.fatal ReqError.requestException

/-- The backoff computation of line 99 of client.py:
`BACKOFF_FACTOR * (2 ** (attempt - 1))`. -/
def backoff (factor : ℚ) (attempt : Nat) : ℚ := factor * 2 ^ (attempt - 1)

/-- What a run of `_get_with_retries` produces: the returned decoded body or
the raised error, the number of attempts performed, and the list of sleep
durations, in order. -/
structure RetryResult where
  result : Except ReqError Json
  attempts : Nat
  sleeps : List ℚ

/-- The `while True` loop of `_get_with_retries`.  `attempt` is the counter
after the `attempt += 1` at the top of the loop body.  `fuel` bounds the
recursion; the loop itself stops as soon as `attempt >= MAX_RETRIES` after a
retryable outcome, so with initial fuel `maxRetries` the fuel-0 clause is
reached only with `maxRetries <= attempt`, where it mirrors the exhaustion
raise of line 95 of client.py. -/
def retryLoop (maxRetries : Nat) (factor : ℚ) (outcomes : Nat → Outcome) :
    Nat → Nat → RetryResult
  | attempt, 0 =>
    match stepOutcome (outcomes attempt) with
    | StepResult.success j => ⟨Except.ok j, attempt, []⟩
    | StepResult.fatal e => ⟨Except.error e, attempt, []⟩
    | StepResult.retryable => ⟨Except.error ReqError.retryError, attempt, []⟩
  | attempt, fuel + 1 =>
    match stepOutcome (outcomes attempt) with
    | StepResult.success j => ⟨Except.ok j, attempt, []⟩
    | StepResult.fatal e => ⟨Except.error e, attempt, []⟩
    | StepResult.retryable =>
      if maxRetries ≤ attempt then
        ⟨Except.error ReqError.retryError, attempt, []⟩
      else
        let r := retryLoop maxRetries factor outcomes (attempt + 1) fuel
        ⟨r.result, r.attempts, backoff factor attempt :: r.sleeps⟩

/-- One call of `_get_with_retries`: the loop starts with `attempt = 1`
(after the first increment), outcome `outcomes i` happening on attempt `i`. -/
def getWithRetries (maxRetries : Nat) (factor : ℚ) (outcomes : Nat → Outcome) : RetryResult :=
  retryLoop maxRetries factor outcomes 1 maxRetries

/-! ## client.py: pagination (fetch_paginated) -/

/-- Query parameters, modelling the `params` dict sent with a request. -/
abbrev Filters := List (String × String)

/-- The observable behaviour of the paginated stream, in order: each
`request url params` is one `_get_with_retries` call issued by the `while
url` loop, each `yield` is one record handed to the consumer, and `failure`
is an error from a page fetch ending the stream. -/
inductive Event where
  | request (url : String) (params : Option Filters)
  | yield (record : Json)
  | failure (e : ReqError)

/-- Line 125 of client.py: `data.get("results", [])`.  (Iterating a present
non-array value would raise in the source; no claim exercises that case.) -/
def getResults (data : Json) : List Json :=
  match jsonGet data "results" with
  | some (Json.arr xs) => xs
  | _ => []

/-- Line 130 of client.py: `url = data.get("next")`, combined with the
`while url` truthiness test: the loop continues only when `next` is a
non-empty string. -/
def getNext (data : Json) : Option String :=
  match jsonGet data "next" with
  | some (Json.str s) => if s = "" then none else some s
  | _ => none

/-- Line 7 of client.py. -/
def BASE_URL : String := "https://www.courtlistener.com/api/rest/v3"

/-- Python `s.lstrip('/')`, written over the character list. -/
def lstripSlashes (s : String) : String := String.mk (s.data.dropWhile (· = '/'))

/-- Python `s.rstrip('/')`, written over the character list. -/
def rstripSlashes (s : String) : String :=
  String.mk (((s.data.reverse).dropWhile (· = '/')).reverse)

/-- Python `s.strip()` (without arguments), written over the character list.
`Char.isWhitespace` covers space, tab, CR and LF; Python also strips a few
rarer whitespace characters, which no claim exercises. -/
def pyStrip (s : String) : String :=
  String.mk (((s.data.dropWhile Char.isWhitespace).reverse.dropWhile Char.isWhitespace).reverse)

/-- Python `s[:n]`: the first n characters. -/
def pyTake (n : Nat) (s : String) : String := String.mk (s.data.take n)

/-- Line 109 of client.py:
`f"\x7bBASE_URL.rstrip('/')\x7d/\x7bendpoint.lstrip('/')\x7d"`. -/
def buildUrl (endpoint : String) : String :=
  rstripSlashes BASE_URL ++ "/" ++ lstripSlashes endpoint

/-- The `while url` loop of `fetch_paginated`.  `net url` gives the outcome
sequence the network would deliver to `_get_with_retries` for `url`; each
page fetch runs the full retry loop.  On success `_get_with_retries` has
already decoded the body to a JSON object, so the second decode inside
`fetch_paginated` yields the same object (modelled directly).  `fuel` bounds
the number of pages; the source loop is unbounded, and every claim supplies
a finite page chain within the fuel. -/
def fetchPaginatedAux (net : String → Nat → Outcome) (maxR : Nat) (f : ℚ) :
    Nat → String → Option Filters → List Event
  | 0, _, _ => []
  | fuel + 1, url, p =>
    Event.request url p ::
      match (getWithRetries maxR f (net url)).result with
      | Except.error e => [Event.failure e]
      | Except.ok data =>
        (getResults data).map Event.yield ++
          (match getNext data with
           | none => []
           | some u2 => fetchPaginatedAux net maxR f fuel u2 none)

/-- One call of `fetch_paginated(endpoint, params)`: the first request goes
to the URL built from the endpoint and carries the caller's params; every
later request uses the server-supplied `next` URL with `params = None`. -/
def fetchPaginated (net : String → Nat → Outcome) (maxR : Nat) (f : ℚ) (fuel : Nat)
    (endpoint : String) (params : Filters) : List Event :=
  fetchPaginatedAux net maxR f fuel (buildUrl endpoint) (some params)

/-- The requests issued in an event trace, in order. -/
def eventRequests (events : List Event) : List (String × Option Filters) :=
  events.filterMap fun ev =>
    match ev with
    | Event.request url p => some (url, p)
    | _ => none

/-- The records yielded in an event trace, in order. -/
def eventYields (events : List Event) : List Json :=
  events.filterMap fun ev =>
    match ev with
    | Event.yield r => some r
    | _ => none

/-- The trace a chain of pages should produce: one request per page (the
first carrying the caller's params, the rest none), each page's records
yielded in order before the next page's request. -/
def pagesEvents : List (String × Json) → Option Filters → List Event
  | [], _ => []
  | (url, body) :: rest, p =>
    (Event.request url p :: (getResults body).map Event.yield) ++ pagesEvents rest none

/-- A well-formed page chain for the network `net`: fetching each page's URL
succeeds with the page's decoded body, and each body's `next` points at the
following page's URL (none for the last page). -/
def chainFrom (net : String → Nat → Outcome) (maxR : Nat) (f : ℚ) :
    List (String × Json) → Prop
  | [] => True
  | (url, body) :: rest =>
    (getWithRetries maxR f (net url)).result = Except.ok body ∧
    getNext body = (match rest with | [] => none | (u2, _) :: _ => some u2) ∧
    chainFrom net maxR f rest

/-! ## main.py -/

/-- main.py lines 42-49: `read_since_file` — `none` when the file does not
exist, otherwise the stripped content if non-empty.  (The `except` clause
for unreadable files is not modelled; the argument is the file's content or
`none` for a missing file.) -/
def read_since_file (content : Option String) : Option String :=
  match content with
  | none => none
  | some c => if pyStrip c = "" then none else some (pyStrip c)

/-- main.py lines 55-60: `extract_date_filed` — `opinion.get("date_filed")`
is falsy (absent, null, or empty) gives `None`; otherwise the first 10
characters of `str(df)`. -/
def extract_date_filed (opinion : Json) : Option String :=
  match jsonGet opinion "date_filed" with
  | none => none
  | some df => if jsonFalsy df then none else some (pyTake 10 (jsonToStr df))

/-- Python `<` on lists of characters: lexicographic by code point, a
shorter prefix smaller than its extensions. -/
def charListLt : List Char → List Char → Bool
  | [], [] => false
  | [], _ :: _ => true
  | _ :: _, [] => false
  | c1 :: r1, c2 :: r2 =>
    if c1 < c2 then true else if c2 < c1 then false else charListLt r1 r2

/-- Python string comparison `a < b`: lexicographic by code point. -/
def pyStrLt (a b : String) : Bool := charListLt a.data b.data

/-- main.py lines 107-111: the newest-date tracking step for one record:
`if d: if (newest_date is None) or (d > newest_date): newest_date = d`. -/
def updateNewest (newest : Option String) (rec : Json) : Option String :=
  match extract_date_filed rec with
  | none => newest
  | some d =>
    match newest with
    | none => some d
    | some m => if pyStrLt m d then some d else some m

/-- The newest-date tracking folded over a record sequence. -/
def trackNewest (recs : List Json) : Option String :=
  recs.foldl updateNewest none

/-- main.py lines 33-40: `filter_fields` — with no (or an empty) field list
the record passes through; otherwise only the listed keys present in the
record are kept, in list order. -/
def filter_fields (record : Json) (fields : Option (List String)) : Json :=
  match fields with
  | none => record
  | some [] => record
  | some fs => Json.obj (fs.filterMap fun k => (jsonGet record k).map fun v => (k, v))

/-- The `for i, rec in enumerate(client.opinions(**filters), start=1)` loop of
main.py lines 106-116: track the newest date, apply the field filter, append
to `collected`, and break once `i >= limit` (checked after appending).
Returns (collected, newest_date, whether the loop broke at the limit). -/
def runLoop (limit : Nat) (fields : Option (List String)) :
    List Json → Nat → Option String → List Json → List Json × Option String × Bool
  | [], _, newest, acc => (acc.reverse, newest, false)
  | rec :: rest, i, newest, acc =>
    let newest' := updateNewest newest rec
    let out := filter_fields rec fields
    if limit ≤ i then ((out :: acc).reverse, newest', true)
    else runLoop limit fields rest (i + 1) newest' (out :: acc)

/-- The parsed command-line arguments of main.py (fields already split). -/
structure Args where
  user : String
  limit : Nat
  dateMin : Option String
  fieldsList : Option (List String)
  sinceFile : Option String

/-- What enumerating `client.opinions(**filters)` delivers: the records the
generator yields, in order, and whether advancing it past them raises an
error (instead of ending normally). -/
structure FetchOutcome where
  recs : List Json
  raisesErr : Bool

/-- The observable effects of one run of `main`: whether it completed (false
means the fetch error propagated out), the output file written with its
records, the user added to the index file, and the (path, value) written to
the since-file. -/
structure RunResult where
  ok : Bool
  outputWrite : Option (String × List Json)
  indexUser : Option String
  sinceWrite : Option (String × String)

/-- Python truthiness of the optional `--date_min` string. -/
def strTruthy : Option String → Bool
  | none => false
  | some s => if s = "" then false else true

/-- main.py lines 81-87: the date_filed_min precedence — the explicit
`--date_min` when truthy, else the since-file content (when a since-file
path was given and its stripped content is non-empty), else the original
(falsy) `--date_min`. -/
def effectiveDateMin (dateMinArg : Option String) (sinceFileGiven : Bool)
    (sinceContent : Option String) : Option String :=
  if !(strTruthy dateMinArg) && sinceFileGiven then
    match read_since_file sinceContent with
    | some stored => some stored
    | none => dateMinArg
  else dateMinArg

/-- main.py lines 97-99: `filters = \x7b\x7d; if date_min:
filters["date_filed_min"] = date_min`. -/
def filtersOf (dateMin : Option String) : Filters :=
  match dateMin with
  | some d => if d = "" then [] else [("date_filed_min", d)]
  | none => []

/-- main.py line 123: the output file path `data/<user>_opinions.jsonl`. -/
def outputPath (user : String) : String := "data/" ++ user ++ "_opinions.jsonl"

/-- main.py lines 62-135: the run, as a function of the parsed arguments,
the since-file's content at session start, and the record stream the client
delivers for the effective filters.  The fetch loop's exception propagates
(failing the run, writing nothing) only when it fired and nothing was
collected; otherwise the collected records are saved, the user index is
updated, and the newest tracked date (stripped, per `write_since_file`) is
written to the since-file when one was configured and a date was seen. -/
def mainRun (args : Args) (sinceContent : Option String)
    (fetch : Filters → FetchOutcome) : RunResult :=
  let dm := effectiveDateMin args.dateMin args.sinceFile.isSome sinceContent
  let fo := fetch (filtersOf dm)
  let r := runLoop args.limit args.fieldsList fo.recs 1 none []
  if fo.raisesErr && !r.2.2 && r.1.isEmpty then
    ⟨false, none, none, none⟩
  else
    ⟨true, some (outputPath args.user, r.1), some args.user,
      match args.sinceFile, r.2.1 with
      | some p, some d => some (p, pyStrip d)
      | _, _ => none⟩

/-! ## main.py: save_jsonl -/

/-- A minimal `json.dumps` string escape (quote and backslash; control
characters are not modelled, and `ensure_ascii=False` keeps other characters
as they are). -/
def escapeStr (s : String) : String :=
  String.join (s.data.map fun c =>
    if c = '\\' then "\\\\" else if c = '"' then "\\\"" else String.singleton c)

/-- `json.dumps(item, ensure_ascii=False)` with the default separators. -/
def Json.dumps : Json → String
  | Json.null => "null"
  | Json.str s => "\"" ++ escapeStr s ++ "\""
  | Json.num n => toString n
  | Json.arr xs => "[" ++ String.intercalate ", " (xs.attach.map fun x => Json.dumps x.1) ++ "]"
  | Json.obj kvs => "\x7b" ++ String.intercalate ", "
      (kvs.attach.map fun kv => "\"" ++ escapeStr kv.1.1 ++ "\": " ++ Json.dumps kv.1.2) ++ "\x7d"
decreasing_by
  all_goals simp_wf
  · have := List.sizeOf_lt_of_mem x.2
    omega
  · have h1 := List.sizeOf_lt_of_mem kv.2
    obtain ⟨⟨a, b⟩, hk⟩ := kv
    simp only [Prod.mk.sizeOf_spec] at h1
    simp only []
    omega

/-- main.py lines 27-31: `save_jsonl` — the file content after the call,
given the file's previous content.  `path.open("w")` truncates the file, so
writing starts from the empty string and `prior` is discarded; the loop then
appends one `json.dumps` line per record. -/
def save_jsonl_run (prior : String) (items : List Json) : String :=
  items.foldl (fun content item => content ++ Json.dumps item ++ "\n") ""

/-- The expected JSON-Lines serialization of a record list. -/
def jsonlContent : List Json → String
  | [] => ""
  | item :: rest => Json.dumps item ++ "\n" ++ jsonlContent rest

/-! ## Step lemmas for the retry loop -/

theorem retryLoop_success (m : Nat) (f : ℚ) (o : Nat → Outcome) (a fuel : Nat) (j : Json)
    (h : stepOutcome (o a) = StepResult.success j) :
    retryLoop m f o a fuel = ⟨Except.ok j, a, []⟩ := by
  cases fuel <;> simp only [retryLoop] <;> rw [h]

theorem retryLoop_fatal (m : Nat) (f : ℚ) (o : Nat → Outcome) (a fuel : Nat) (e : ReqError)
    (h : stepOutcome (o a) = StepResult.fatal e) :
    retryLoop m f o a fuel = ⟨Except.error e, a, []⟩ := by
  cases fuel <;> simp only [retryLoop] <;> rw [h]

theorem retryLoop_exhaust (m : Nat) (f : ℚ) (o : Nat → Outcome) (a fuel : Nat)
    (h : stepOutcome (o a) = StepResult.retryable) (hle : m ≤ a) :
    retryLoop m f o a fuel = ⟨Except.error ReqError.retryError, a, []⟩ := by
  cases fuel
  · simp only [retryLoop]; rw [h]
  · simp only [retryLoop]; rw [h]; simp [hle]

theorem retryLoop_step (m : Nat) (f : ℚ) (o : Nat → Outcome) (a fuel : Nat)
    (h : stepOutcome (o a) = StepResult.retryable) (hlt : a < m) :
    retryLoop m f o a (fuel + 1) =
      ⟨(retryLoop m f o (a + 1) fuel).result, (retryLoop m f o (a + 1) fuel).attempts,
        backoff f a :: (retryLoop m f o (a + 1) fuel).sleeps⟩ := by
  simp only [retryLoop]
  rw [h]
  simp [Nat.not_le.mpr hlt]

theorem cons_backoff_range (f : ℚ) (a k : Nat) (h : a < k) :
    backoff f a :: (List.range (k - (a + 1))).map (fun i => backoff f (a + 1 + i))
      = (List.range (k - a)).map fun i => backoff f (a + i) := by
  have hk : k - a = (k - (a + 1)) + 1 := by omega
  rw [hk, List.range_succ_eq_map, List.map_cons, List.map_map]
  have h1 : (List.range (k - (a + 1))).map ((fun i => backoff f (a + i)) ∘ Nat.succ)
      = (List.range (k - (a + 1))).map (fun i => backoff f (a + 1 + i)) := by
    apply List.map_congr_left
    intro i _
    simp only [Function.comp_apply]
    congr 1
    omega
  rw [h1]
  norm_num

/-- When every outcome from attempt `a` through `maxRetries` is retryable, the
loop spends the whole budget: it fails with RetryError at attempt `maxRetries`,
sleeping after each of attempts `a .. maxRetries - 1`. -/
theorem retryLoop_all_retryable (m : Nat) (f : ℚ) (o : Nat → Outcome)
    (hret : ∀ i, 1 ≤ i → i ≤ m → stepOutcome (o i) = StepResult.retryable) :
    ∀ fuel a, a + fuel = m + 1 → 1 ≤ a → a ≤ m →
      retryLoop m f o a fuel =
        ⟨Except.error ReqError.retryError, m,
          (List.range (m - a)).map fun i => backoff f (a + i)⟩ := by
  intro fuel
  induction fuel with
  | zero => intro a h1 h2 h3; omega
  | succ fuel ih =>
    intro a h1 h2 h3
    by_cases hle : m ≤ a
    · have ha : a = m := by omega
      rw [retryLoop_exhaust m f o a (fuel + 1) (hret a h2 h3) hle, ha]
      simp
    · rw [retryLoop_step m f o a fuel (hret a h2 h3) (by omega)]
      rw [ih (a + 1) (by omega) (by omega) (by omega)]
      simp only []
      congr 1
      exact cons_backoff_range f a m (by omega)

/-- The result of the loop when the outcome at attempt `k` ends it. -/
def resultOfStep : StepResult → Except ReqError Json
  | StepResult.success j => Except.ok j
  | StepResult.fatal e => Except.error e
  | StepResult.retryable => Except.error ReqError.retryError

/-- When the outcomes at attempts `a .. k-1` are retryable and the outcome at
attempt `k <= maxRetries` is terminal (success or fatal), the loop terminates
at attempt `k`, sleeping after each of attempts `a .. k-1`. -/
theorem retryLoop_terminal (m : Nat) (f : ℚ) (o : Nat → Outcome) (k : Nat)
    (hk : k ≤ m) (hterm : ¬ stepOutcome (o k) = StepResult.retryable) :
    ∀ fuel a, a + fuel = m + 1 → 1 ≤ a → a ≤ k →
      (∀ i, a ≤ i → i < k → stepOutcome (o i) = StepResult.retryable) →
      retryLoop m f o a fuel =
        ⟨resultOfStep (stepOutcome (o k)), k,
          (List.range (k - a)).map fun i => backoff f (a + i)⟩ := by
  intro fuel
  induction fuel with
  | zero => intro a h1 h2 h3 hall; omega
  | succ fuel ih =>
    intro a h1 h2 h3 hall
    by_cases hak : a = k
    · rw [hak]
      cases hs : stepOutcome (o k) with
      | success j =>
        rw [retryLoop_success m f o k (fuel + 1) j hs]
        simp [resultOfStep]
      | fatal e =>
        rw [retryLoop_fatal m f o k (fuel + 1) e hs]
        simp [resultOfStep]
      | retryable => exact absurd hs hterm
    · have hlt : a < k := by omega
      rw [retryLoop_step m f o a fuel (hall a le_rfl hlt) (by omega)]
      rw [ih (a + 1) (by omega) (by omega) (by omega) (fun i hi1 hi2 => hall i (by omega) hi2)]
      simp only []
      congr 1
      exact cons_backoff_range f a k hlt

/-! ## Claim C1 -/

/-- C1: for every sequence of attempt outcomes whose first max-attempts
outcomes are all retryable (retryable HTTP status, connection failure, or
read timeout — exactly the outcomes `stepOutcome` classifies retryable),
`_get_with_retries` fails with RetryError after exactly max-attempts
attempts, performing max-attempts - 1 backoff sleeps, the i-th (1-indexed)
lasting `factor * 2 ^ (i - 1)` — a strictly increasing sequence when the
factor is positive. -/
theorem getWithRetries_exhausts (maxR : Nat) (f : ℚ) (o : Nat → Outcome)
    (hmax : 1 ≤ maxR)
    (hret : ∀ i, 1 ≤ i → i ≤ maxR → stepOutcome (o i) = StepResult.retryable) :
    (getWithRetries maxR f o).result = Except.error ReqError.retryError ∧
    (getWithRetries maxR f o).attempts = maxR ∧
    (getWithRetries maxR f o).sleeps = (List.range (maxR - 1)).map (fun i => f * 2 ^ i) ∧
    (0 < f → ((getWithRetries maxR f o).sleeps).Pairwise (· < ·)) := by
  have h := retryLoop_all_retryable maxR f o hret maxR 1 (by omega) le_rfl hmax
  have hmap : (List.range (maxR - 1)).map (fun i => backoff f (1 + i))
      = (List.range (maxR - 1)).map (fun i => f * 2 ^ i) := by
    apply List.map_congr_left
    intro i _
    simp [backoff]
  unfold getWithRetries
  rw [h]
  refine ⟨rfl, rfl, hmap, ?_⟩
  intro hf
  show ((List.range (maxR - 1)).map (fun i => backoff f (1 + i))).Pairwise (· < ·)
  rw [hmap]
  exact List.Pairwise.map (fun i => f * 2 ^ i)
    (fun a b hab => mul_lt_mul_of_pos_left (pow_lt_pow_right₀ one_lt_two hab) hf)
    (List.pairwise_lt_range _)

theorem getWithRetries_exhausts_witness :
    (getWithRetries 6 (3 / 2) (fun _ => Outcome.connError)).result
        = Except.error ReqError.retryError ∧
    (getWithRetries 6 (3 / 2) (fun _ => Outcome.connError)).attempts = 6 ∧
    (getWithRetries 6 (3 / 2) (fun _ => Outcome.connError)).sleeps.length = 5 := by
  have h := getWithRetries_exhausts 6 (3 / 2) (fun _ => Outcome.connError) (by omega)
    (fun i h1 h2 => rfl)
  refine ⟨h.1, h.2.1, ?_⟩
  rw [h.2.2.1]
  rfl

/-! ## Claim C2 -/

/-- C2: for every k with 1 <= k <= max-attempts, if the first k-1 attempt
outcomes are retryable and the k-th attempt yields a decodable HTTP success,
`_get_with_retries` returns that success and makes exactly k attempts,
issuing no further requests after the success. -/
theorem getWithRetries_success_at (maxR : Nat) (f : ℚ) (o : Nat → Outcome)
    (k : Nat) (j : Json) (hk1 : 1 ≤ k) (hk2 : k ≤ maxR)
    (hret : ∀ i, 1 ≤ i → i < k → stepOutcome (o i) = StepResult.retryable)
    (hsucc : stepOutcome (o k) = StepResult.success j) :
    (getWithRetries maxR f o).result = Except.ok j ∧
    (getWithRetries maxR f o).attempts = k := by
  have h := retryLoop_terminal maxR f o k hk2 (by rw [hsucc]; intro hc; cases hc)
      maxR 1 (by omega) le_rfl hk1 (fun i h1 h2 => hret i h1 h2)
  unfold getWithRetries
  rw [h, hsucc]
  exact ⟨rfl, rfl⟩

/-- A success body: an object with an empty results array and a null next. -/
def emptyPage : Json := Json.obj [("results", Json.arr []), ("next", Json.null)]

/-- One retryable 503 outcome followed by successes. -/
def c2Outcomes : Nat → Outcome := fun i =>
  if i = 1 then Outcome.resp 503 none
  else Outcome.resp 200 (some emptyPage)

theorem getWithRetries_success_at_witness :
    (getWithRetries 6 (3 / 2) c2Outcomes).result = Except.ok emptyPage ∧
    (getWithRetries 6 (3 / 2) c2Outcomes).attempts = 2 := by
  have h := getWithRetries_success_at 6 (3 / 2) c2Outcomes 2 emptyPage
      (by omega) (by omega)
      (fun i h1 h2 => by
        have hi : i = 1 := by omega
        rw [hi]
        rfl)
      rfl
  exact h

/-! ## Claim C3 (corrected) -/

/-- The statuses and faults the code treats as fatal at classification time:
`raise_for_status` raises exactly for statuses in [400, 600), so the fatal
statuses are those in [400, 600) outside the retryable set; the fatal faults
are the request exceptions that are neither connection failures nor read
timeouts.  (A status outside [200, 300) but also outside [400, 600), such as
304, is NOT fatal in the code — see `status304_not_fatal`.) -/
def fatalOutcome (o : Outcome) (e : ReqError) : Prop :=
  (∃ s b, o = Outcome.resp s b ∧ 400 ≤ s ∧ s < 600 ∧ ¬ s ∈ retryableStatuses
      ∧ e = ReqError.httpError s) ∨
  (o = Outcome.otherFault ∧ e = ReqError.requestException)

theorem fatalOutcome_step (o : Outcome) (e : ReqError) (h : fatalOutcome o e) :
    stepOutcome o = StepResult.fatal e := by
  rcases h with ⟨s, b, rfl, h4, h6, hns, rfl⟩ | ⟨rfl, rfl⟩
  · simp [stepOutcome, hns, h4, h6]
  · rfl

/-- C3 counterexample: the claim classifies every non-2xx status outside the
retryable set as fatal, but a 304 response with a decodable JSON-object body
is returned as a success at attempt 1 — `raise_for_status` raises only for
statuses in [400, 600). -/
theorem status304_not_fatal :
    (getWithRetries 6 (3 / 2) (fun _ => Outcome.resp 304 (some (Json.obj [])))).result
        = Except.ok (Json.obj []) ∧
    (getWithRetries 6 (3 / 2) (fun _ => Outcome.resp 304 (some (Json.obj [])))).attempts = 1 :=
  ⟨rfl, rfl⟩

/-- C3 (amended): a fatal outcome — an HTTP status in [400, 600) outside the
retryable set, or a fault that is neither a connection failure nor a read
timeout — at attempt j (reachable: the first j-1 outcomes retryable,
j <= max-attempts) makes `_get_with_retries` propagate the error at attempt
j, performing no sleep at attempt j (exactly j-1 sleeps happened, for the
earlier retryable attempts) and never making attempt j+1. -/
theorem getWithRetries_fatal_at (maxR : Nat) (f : ℚ) (o : Nat → Outcome)
    (k : Nat) (e : ReqError) (hk1 : 1 ≤ k) (hk2 : k ≤ maxR)
    (hret : ∀ i, 1 ≤ i → i < k → stepOutcome (o i) = StepResult.retryable)
    (hfat : fatalOutcome (o k) e) :
    (getWithRetries maxR f o).result = Except.error e ∧
    (getWithRetries maxR f o).attempts = k ∧
    (getWithRetries maxR f o).sleeps.length = k - 1 := by
  have hstep := fatalOutcome_step (o k) e hfat
  have h := retryLoop_terminal maxR f o k hk2 (by rw [hstep]; intro hc; cases hc)
      maxR 1 (by omega) le_rfl hk1 (fun i h1 h2 => hret i h1 h2)
  unfold getWithRetries
  rw [h, hstep]
  refine ⟨rfl, rfl, ?_⟩
  simp

theorem getWithRetries_fatal_at_witness :
    (getWithRetries 6 (3 / 2) (fun _ => Outcome.resp 403 none)).result
        = Except.error (ReqError.httpError 403) ∧
    (getWithRetries 6 (3 / 2) (fun _ => Outcome.resp 403 none)).attempts = 1 ∧
    (getWithRetries 6 (3 / 2) (fun _ => Outcome.resp 403 none)).sleeps.length = 0 := by
  have h := getWithRetries_fatal_at 6 (3 / 2) (fun _ => Outcome.resp 403 none) 1
      (ReqError.httpError 403) (by omega) (by omega)
      (fun i h1 h2 => by omega)
      (Or.inl ⟨403, none, rfl, by omega, by omega, by decide, rfl⟩)
  exact h

/-! ## Claim C4 (corrected) -/

/-- C4 counterexample: a 2xx response whose body decodes to a JSON object
without a results array is returned as a success at attempt 1, not failed as
malformed — the stream then reads its records with `data.get("results", [])`,
defaulting to the empty list. -/
theorem missing_results_not_fatal :
    (getWithRetries 6 (3 / 2) (fun _ => Outcome.resp 200 (some (Json.obj [])))).result
        = Except.ok (Json.obj []) ∧
    (getWithRetries 6 (3 / 2) (fun _ => Outcome.resp 200 (some (Json.obj [])))).attempts = 1 ∧
    getResults (Json.obj []) = [] :=
  ⟨rfl, rfl, rfl⟩

/-- C4 (amended): a 2xx response whose body fails to decode as JSON, or
decodes to a non-object, fails fatally at that very attempt (no retry, no
sleep); a 2xx body that decodes to a JSON object is returned as a success
even without a records array — the stream treats such a page as having no
records (`getResults` defaults to the empty list). -/
theorem success_body_decode (maxR : Nat) (f : ℚ) (o : Nat → Outcome)
    (s : Nat) (b : Option Json)
    (h1 : o 1 = Outcome.resp s b) (h200 : 200 ≤ s) (h299 : s ≤ 299) :
    (b = none →
      getWithRetries maxR f o = ⟨Except.error ReqError.jsonDecodeError, 1, []⟩) ∧
    (∀ j, b = some j → j.isObj = false →
      getWithRetries maxR f o = ⟨Except.error ReqError.attributeError, 1, []⟩) ∧
    (∀ j, b = some j → j.isObj = true →
      getWithRetries maxR f o = ⟨Except.ok j, 1, []⟩) ∧
    (∀ kvs, b = some (Json.obj kvs) → lookupKey kvs "results" = none →
      getResults (Json.obj kvs) = []) := by
  have hmem : ¬ s ∈ retryableStatuses := by
    intro hc
    simp only [retryableStatuses, List.mem_cons, List.not_mem_nil, or_false] at hc
    omega
  have hrange : ¬ (400 ≤ s ∧ s < 600) := by
    intro hc
    omega
  refine ⟨?_, ?_, ?_, ?_⟩
  · intro hb
    subst hb
    have hstep : stepOutcome (o 1) = StepResult.fatal ReqError.jsonDecodeError := by
      rw [h1]
      simp [stepOutcome, hmem, hrange]
    exact retryLoop_fatal maxR f o 1 maxR ReqError.jsonDecodeError hstep
  · intro j hb hobj
    subst hb
    have hstep : stepOutcome (o 1) = StepResult.fatal ReqError.attributeError := by
      rw [h1]
      simp [stepOutcome, hmem, hrange, hobj]
    exact retryLoop_fatal maxR f o 1 maxR ReqError.attributeError hstep
  · intro j hb hobj
    subst hb
    have hstep : stepOutcome (o 1) = StepResult.success j := by
      rw [h1]
      simp [stepOutcome, hmem, hrange, hobj]
    exact retryLoop_success maxR f o 1 maxR j hstep
  · intro kvs hb hlk
    simp [getResults, jsonGet, hlk]

theorem success_body_decode_witness :
    getWithRetries 6 (3 / 2) (fun _ => Outcome.resp 204 none)
        = ⟨Except.error ReqError.jsonDecodeError, 1, []⟩ ∧
    getWithRetries 6 (3 / 2) (fun _ => Outcome.resp 200 (some (Json.arr [])))
        = ⟨Except.error ReqError.attributeError, 1, []⟩ := by
  have ha := success_body_decode 6 (3 / 2) (fun _ => Outcome.resp 204 none) 204 none
      rfl (by omega) (by omega)
  have hb := success_body_decode 6 (3 / 2) (fun _ => Outcome.resp 200 (some (Json.arr [])))
      200 (some (Json.arr [])) rfl (by omega) (by omega)
  exact ⟨ha.1 rfl, hb.2.1 (Json.arr []) rfl rfl⟩

/-! ## Pagination lemmas -/

theorem eventYields_yield_map (rs : List Json) (es : List Event) :
    eventYields (rs.map Event.yield ++ es) = rs ++ eventYields es := by
  induction rs with
  | nil => rfl
  | cons r rest ih =>
    simp only [List.map_cons, List.cons_append, eventYields, List.filterMap_cons] at ih ⊢
    rw [ih]

theorem eventYields_request (url : String) (p : Option Filters) (es : List Event) :
    eventYields (Event.request url p :: es) = eventYields es := by
  simp only [eventYields, List.filterMap_cons]

theorem eventRequests_yield_map (rs : List Json) (es : List Event) :
    eventRequests (rs.map Event.yield ++ es) = eventRequests es := by
  induction rs with
  | nil => rfl
  | cons r rest ih =>
    simp only [List.map_cons, List.cons_append, eventRequests, List.filterMap_cons] at ih ⊢
    rw [ih]

theorem eventRequests_request (url : String) (p : Option Filters) (es : List Event) :
    eventRequests (Event.request url p :: es) = (url, p) :: eventRequests es := by
  simp only [eventRequests, List.filterMap_cons]

theorem eventYields_pagesEvents :
    ∀ (pages : List (String × Json)) (p : Option Filters),
      eventYields (pagesEvents pages p) = (pages.map fun pg => getResults pg.2).flatten := by
  intro pages
  induction pages with
  | nil => intro p; rfl
  | cons pg rest ih =>
    intro p
    obtain ⟨url, body⟩ := pg
    simp only [pagesEvents, List.cons_append, List.map_cons, List.flatten_cons]
    rw [eventYields_request, eventYields_yield_map, ih]

theorem eventRequests_pagesEvents :
    ∀ (pages : List (String × Json)) (url : String) (body : Json) (p : Option Filters),
      pages = (url, body) :: pages.tail →
      eventRequests (pagesEvents pages p)
        = (url, p) :: pages.tail.map (fun pg => (pg.1, (none : Option Filters))) := by
  intro pages
  induction pages with
  | nil => intro url body p h; cases h
  | cons pg rest ih =>
    intro url body p h
    have hpg : pg = (url, body) := by
      have := congrArg (fun l => List.head? l) h
      simpa using this
    rw [hpg]
    simp only [pagesEvents, List.cons_append]
    rw [eventRequests_request, eventRequests_yield_map]
    simp only [List.tail_cons]
    cases rest with
    | nil => rfl
    | cons pg2 rest2 =>
      obtain ⟨u2, b2⟩ := pg2
      rw [ih u2 b2 none rfl]
      rfl

/-- The pagination loop on a well-formed chain: the trace is exactly one
request per page followed by that page's records, ending after the page
whose next is null. -/
theorem fetchPaginatedAux_chain (net : String → Nat → Outcome) (maxR : Nat) (f : ℚ) :
    ∀ (rest : List (String × Json)) (url : String) (body : Json)
      (p : Option Filters) (fuel : Nat),
      chainFrom net maxR f ((url, body) :: rest) →
      rest.length + 1 ≤ fuel →
      fetchPaginatedAux net maxR f fuel url p = pagesEvents ((url, body) :: rest) p := by
  intro rest
  induction rest with
  | nil =>
    intro url body p fuel hchain hfuel
    simp only [chainFrom] at hchain
    obtain ⟨hok, hnext, -⟩ := hchain
    cases fuel with
    | zero => omega
    | succ fuel =>
      simp only [fetchPaginatedAux, hok, hnext, pagesEvents]
      simp
  | cons pg2 rest2 ih =>
    intro url body p fuel hchain hfuel
    obtain ⟨u2, b2⟩ := pg2
    simp only [chainFrom] at hchain
    obtain ⟨hok, hnext, hchain2⟩ := hchain
    cases fuel with
    | zero => simp only [List.length_cons] at hfuel; omega
    | succ fuel =>
      simp only [fetchPaginatedAux, hok, hnext]
      rw [ih u2 b2 none fuel (by simp only [chainFrom]; exact hchain2)
        (by simp only [List.length_cons] at hfuel ⊢; omega)]
      simp [pagesEvents]

/-! ## Claim C5 -/

/-- C5: for every chain of pages in which every page but the last carries a
next reference and the last page's next is null, fetch_paginated produces
exactly one request per page — the first carrying the original query
filters, every later one the server-supplied next URL with params None — and
yields each page's records, in order, between that page's request and the
next one; the total yields are the concatenation of all pages' results, and
no request follows the page whose next is null. -/
theorem fetchPaginated_chain (net : String → Nat → Outcome) (maxR : Nat) (f : ℚ)
    (fuel : Nat) (endpoint : String) (params : Filters)
    (url : String) (body : Json) (rest : List (String × Json))
    (hu : url = buildUrl endpoint)
    (hchain : chainFrom net maxR f ((url, body) :: rest))
    (hfuel : rest.length + 1 ≤ fuel) :
    fetchPaginated net maxR f fuel endpoint params
        = pagesEvents ((url, body) :: rest) (some params) ∧
    eventYields (fetchPaginated net maxR f fuel endpoint params)
        = (((url, body) :: rest).map fun pg => getResults pg.2).flatten ∧
    eventRequests (fetchPaginated net maxR f fuel endpoint params)
        = (buildUrl endpoint, some params)
            :: rest.map (fun pg => (pg.1, (none : Option Filters))) := by
  subst hu
  have h := fetchPaginatedAux_chain net maxR f rest (buildUrl endpoint) body
      (some params) fuel hchain hfuel
  unfold fetchPaginated
  rw [h]
  refine ⟨rfl, ?_, ?_⟩
  · exact eventYields_pagesEvents ((buildUrl endpoint, body) :: rest) (some params)
  · have hr := eventRequests_pagesEvents ((buildUrl endpoint, body) :: rest)
      (buildUrl endpoint) body (some params) rfl
    simpa using hr

/-- Two records on page 1, one on page 2. -/
def wRec1 : Json := Json.obj [("id", Json.num 1), ("date_filed", Json.str "2024-01-01")]

def wRec2 : Json := Json.obj [("id", Json.num 2)]

def wRec3 : Json := Json.obj [("id", Json.num 3)]

def wPage1 : Json :=
  Json.obj [("results", Json.arr [wRec1, wRec2]), ("next", Json.str "p2")]

def wPage2 : Json := Json.obj [("results", Json.arr [wRec3]), ("next", Json.null)]

/-- A network serving the two-page chain. -/
def wNet : String → Nat → Outcome := fun url _ =>
  if url = buildUrl "/opinions/" then Outcome.resp 200 (some wPage1)
  else Outcome.resp 200 (some wPage2)

theorem fetchPaginated_chain_witness :
    eventYields (fetchPaginated wNet 6 (3 / 2) 2 "/opinions/" []) = [wRec1, wRec2, wRec3] ∧
    eventRequests (fetchPaginated wNet 6 (3 / 2) 2 "/opinions/" [])
      = [(buildUrl "/opinions/", some ([] : Filters)), ("p2", none)] := by
  have hc : chainFrom wNet 6 (3 / 2) [(buildUrl "/opinions/", wPage1), ("p2", wPage2)] := by
    simp only [chainFrom]
    exact ⟨rfl, rfl, rfl, rfl, trivial⟩
  have h := fetchPaginated_chain wNet 6 (3 / 2) 2 "/opinions/" [] (buildUrl "/opinions/")
      wPage1 [("p2", wPage2)] rfl hc (by simp)
  exact ⟨h.2.1.trans rfl, h.2.2.trans rfl⟩

/-! ## The Python string comparison agrees with the lexicographic order -/

theorem charListLt_iff : ∀ l1 l2 : List Char, charListLt l1 l2 = true ↔ List.lt l1 l2 := by
  intro l1
  induction l1 with
  | nil =>
    intro l2
    cases l2 with
    | nil =>
      simp only [charListLt, Bool.false_eq_true, false_iff]
      intro h
      cases h
    | cons c2 r2 =>
      simp only [charListLt, true_iff]
      exact List.lt.nil c2 r2
  | cons c1 r1 ih =>
    intro l2
    cases l2 with
    | nil =>
      simp only [charListLt, Bool.false_eq_true, false_iff]
      intro h
      cases h
    | cons c2 r2 =>
      simp only [charListLt]
      by_cases h12 : c1 < c2
      · rw [if_pos h12]
        simp only [true_iff]
        exact List.lt.head r1 r2 h12
      · rw [if_neg h12]
        by_cases h21 : c2 < c1
        · rw [if_pos h21]
          simp only [Bool.false_eq_true, false_iff]
          intro h
          cases h with
          | head as bs hlt => exact h12 hlt
          | tail hn1 hn2 ht => exact hn2 h21
        · rw [if_neg h21, ih r2]
          constructor
          · intro h
            exact List.lt.tail h12 h21 h
          · intro h
            cases h with
            | head as bs hlt => exact absurd hlt h12
            | tail hn1 hn2 ht => exact ht

theorem pyStrLt_iff (a b : String) : pyStrLt a b = true ↔ a < b := by
  rw [String.lt_iff_toList_lt]
  exact (charListLt_iff a.data b.data).trans (List.lt_iff_lex_lt a.data b.data)

/-! ## Watermark-fold lemmas -/

theorem foldl_updateNewest_char (recs : List Json) :
    ∀ (w : Option String) (m : String),
      recs.foldl updateNewest w = some m →
      ((w = some m ∨ m ∈ recs.filterMap extract_date_filed) ∧
       (∀ d ∈ recs.filterMap extract_date_filed, d ≤ m) ∧
       (∀ m0, w = some m0 → m0 ≤ m)) := by
  induction recs with
  | nil =>
    intro w m h
    refine ⟨Or.inl h, ?_, ?_⟩
    · intro d hd
      exact absurd hd (List.not_mem_nil d)
    · intro m0 hm0
      rw [hm0] at h
      exact le_of_eq (Option.some.inj h)
  | cons rec rest ih =>
    intro w m h
    simp only [List.foldl_cons] at h
    cases hx : extract_date_filed rec with
    | none =>
      have hw : updateNewest w rec = w := by simp [updateNewest, hx]
      rw [hw] at h
      simp only [List.filterMap_cons, hx]
      exact ih w m h
    | some d =>
      simp only [List.filterMap_cons, hx]
      cases w with
      | none =>
        have hw : updateNewest none rec = some d := by simp [updateNewest, hx]
        rw [hw] at h
        obtain ⟨h1, h2, h3⟩ := ih (some d) m h
        refine ⟨?_, ?_, ?_⟩
        · rcases h1 with h1 | h1
          · right
            rw [List.mem_cons]
            left
            exact (Option.some.inj h1).symm
          · exact Or.inr (List.mem_cons_of_mem _ h1)
        · intro e he
          rw [List.mem_cons] at he
          rcases he with rfl | he
          · exact h3 e rfl
          · exact h2 e he
        · intro m0 hm0
          cases hm0
      | some m0 =>
        by_cases hlt : pyStrLt m0 d = true
        · have hw : updateNewest (some m0) rec = some d := by
            simp [updateNewest, hx, hlt]
          rw [hw] at h
          obtain ⟨h1, h2, h3⟩ := ih (some d) m h
          have hdm : d ≤ m := h3 d rfl
          have hm0d : m0 < d := (pyStrLt_iff m0 d).mp hlt
          refine ⟨?_, ?_, ?_⟩
          · rcases h1 with h1 | h1
            · right
              rw [List.mem_cons]
              left
              exact (Option.some.inj h1).symm
            · exact Or.inr (List.mem_cons_of_mem _ h1)
          · intro e he
            rw [List.mem_cons] at he
            rcases he with rfl | he
            · exact hdm
            · exact h2 e he
          · intro m1 hm1
            have hm10 : m1 = m0 := (Option.some.inj hm1).symm
            rw [hm10]
            exact le_trans (le_of_lt hm0d) hdm
        · have hw : updateNewest (some m0) rec = some m0 := by
            simp [updateNewest, hx, hlt]
          rw [hw] at h
          obtain ⟨h1, h2, h3⟩ := ih (some m0) m h
          have hm0m : m0 ≤ m := h3 m0 rfl
          have hdm0 : d ≤ m0 := by
            have hc : ¬ m0 < d := fun hc => hlt ((pyStrLt_iff m0 d).mpr hc)
            exact not_lt.mp hc
          refine ⟨?_, ?_, ?_⟩
          · rcases h1 with h1 | h1
            · exact Or.inl h1
            · exact Or.inr (List.mem_cons_of_mem _ h1)
          · intro e he
            rw [List.mem_cons] at he
            rcases he with rfl | he
            · exact le_trans hdm0 hm0m
            · exact h2 e he
          · intro m1 hm1
            have hm10 : m1 = m0 := (Option.some.inj hm1).symm
            rw [hm10]
            exact hm0m

theorem foldl_updateNewest_none (recs : List Json) :
    ∀ w, recs.foldl updateNewest w = none ↔
      (w = none ∧ recs.filterMap extract_date_filed = []) := by
  induction recs with
  | nil => intro w; simp
  | cons rec rest ih =>
    intro w
    simp only [List.foldl_cons, List.filterMap_cons]
    cases hx : extract_date_filed rec with
    | none =>
      have hw : updateNewest w rec = w := by simp [updateNewest, hx]
      rw [hw, ih w]
    | some d =>
      have hw : ∃ v, updateNewest w rec = some v := by
        cases w with
        | none => exact ⟨d, by simp [updateNewest, hx]⟩
        | some m0 =>
          by_cases hlt : pyStrLt m0 d = true
          · exact ⟨d, by simp [updateNewest, hx, hlt]⟩
          · exact ⟨m0, by simp [updateNewest, hx, hlt]⟩
      obtain ⟨v, hv⟩ := hw
      rw [hv, ih (some v)]
      simp

theorem trackNewest_none_iff (recs : List Json) :
    trackNewest recs = none ↔ recs.filterMap extract_date_filed = [] := by
  unfold trackNewest
  rw [foldl_updateNewest_none recs none]
  simp

theorem trackNewest_max (recs : List Json) (m : String) (h : trackNewest recs = some m) :
    m ∈ recs.filterMap extract_date_filed ∧
    ∀ d ∈ recs.filterMap extract_date_filed, d ≤ m := by
  obtain ⟨h1, h2, h3⟩ := foldl_updateNewest_char recs none m h
  refine ⟨?_, h2⟩
  rcases h1 with h1 | h1
  · cases h1
  · exact h1

/-! ## Loop lemmas for main -/

theorem runLoop_newest_none (limit : Nat) (fields : Option (List String)) :
    ∀ (recs : List Json) (i : Nat) (w : Option String) (acc : List Json),
      (∀ rec ∈ recs, extract_date_filed rec = none) →
      (runLoop limit fields recs i w acc).2.1 = w := by
  intro recs
  induction recs with
  | nil => intro i w acc h; rfl
  | cons rec rest ih =>
    intro i w acc h
    have hu : updateNewest w rec = w := by
      simp [updateNewest, h rec (List.mem_cons_self rec rest)]
    simp only [runLoop, hu]
    by_cases hl : limit ≤ i
    · rw [if_pos hl]
    · rw [if_neg hl]
      exact ih (i + 1) w (filter_fields rec fields :: acc)
        (fun r hr => h r (List.mem_cons_of_mem rec hr))

theorem runLoop_newest_prop (P : String → Prop) (limit : Nat) (fields : Option (List String)) :
    ∀ (recs : List Json) (i : Nat) (w : Option String) (acc : List Json),
      (∀ e, w = some e → P e) →
      (∀ rec ∈ recs, ∀ e, extract_date_filed rec = some e → P e) →
      ∀ m, (runLoop limit fields recs i w acc).2.1 = some m → P m := by
  intro recs
  induction recs with
  | nil =>
    intro i w acc hw hrecs m hm
    exact hw m hm
  | cons rec rest ih =>
    intro i w acc hw hrecs m hm
    have hw' : ∀ e, updateNewest w rec = some e → P e := by
      intro e he
      cases hx : extract_date_filed rec with
      | none =>
        rw [show updateNewest w rec = w from by simp [updateNewest, hx]] at he
        exact hw e he
      | some d =>
        have hd : P d := hrecs rec (List.mem_cons_self rec rest) d hx
        cases w with
        | none =>
          rw [show updateNewest none rec = some d from by simp [updateNewest, hx]] at he
          rw [← Option.some.inj he]
          exact hd
        | some m0 =>
          by_cases hlt : pyStrLt m0 d = true
          · rw [show updateNewest (some m0) rec = some d from by
                simp [updateNewest, hx, hlt]] at he
            rw [← Option.some.inj he]
            exact hd
          · rw [show updateNewest (some m0) rec = some m0 from by
                simp [updateNewest, hx, hlt]] at he
            rw [← Option.some.inj he]
            exact hw m0 rfl
    simp only [runLoop] at hm
    by_cases hl : limit ≤ i
    · rw [if_pos hl] at hm
      exact hw' m hm
    · rw [if_neg hl] at hm
      exact ih (i + 1) (updateNewest w rec) (filter_fields rec fields :: acc) hw'
        (fun r hr e hx => hrecs r (List.mem_cons_of_mem rec hr) e hx) m hm

/-! ## Claim C6 -/

/-- C6: the tracked watermark ends equal to the lexicographic maximum of the
first-10-character truncations of the date_filed field over the records
carrying a (truthy) date_filed: it is unset exactly when no record
contributed a date, and when set it is one of the extracted dates and an
upper bound of all of them; a record without the field never changes the
watermark; and a run in which no fetched record carries the field writes no
since-file value. -/
theorem watermark_spec (recs : List Json) (args : Args) (sinceContent : Option String)
    (fetch : Filters → FetchOutcome) :
    (trackNewest recs = none ↔ recs.filterMap extract_date_filed = []) ∧
    (∀ m, trackNewest recs = some m →
        m ∈ recs.filterMap extract_date_filed ∧
        ∀ d ∈ recs.filterMap extract_date_filed, d ≤ m) ∧
    (∀ rec w, jsonGet rec "date_filed" = none → updateNewest w rec = w) ∧
    ((∀ rec ∈ (fetch (filtersOf (effectiveDateMin args.dateMin args.sinceFile.isSome
        sinceContent))).recs, extract_date_filed rec = none) →
      (mainRun args sinceContent fetch).sinceWrite = none) := by
  refine ⟨trackNewest_none_iff recs, fun m h => trackNewest_max recs m h, ?_, ?_⟩
  · intro rec w h
    simp [updateNewest, extract_date_filed, h]
  · intro hall
    have hnew := runLoop_newest_none args.limit args.fieldsList
        (fetch (filtersOf (effectiveDateMin args.dateMin args.sinceFile.isSome
          sinceContent))).recs 1 none [] hall
    simp only [mainRun]
    split
    · rfl
    · rw [hnew]
      cases args.sinceFile <;> rfl

/-- Observed records for the C6 witness: two dated, one without the field. -/
def c6Recs : List Json :=
  [Json.obj [("date_filed", Json.str "2024-01-02T00:00:00Z")],
   Json.obj [("id", Json.num 7)],
   Json.obj [("date_filed", Json.str "2023-12-31")]]

def c6Args : Args := ⟨"alice", 10, none, none, some "since.txt"⟩

/-- A fetch returning one record without a date_filed field. -/
def c6Fetch : Filters → FetchOutcome := fun _ => ⟨[Json.obj [("id", Json.num 1)]], false⟩

theorem watermark_spec_witness :
    trackNewest c6Recs = some "2024-01-02" ∧
    "2024-01-02" ∈ c6Recs.filterMap extract_date_filed ∧
    (∀ d ∈ c6Recs.filterMap extract_date_filed, d ≤ "2024-01-02") ∧
    (mainRun c6Args none c6Fetch).sinceWrite = none := by
  have h := watermark_spec c6Recs c6Args none c6Fetch
  have ht : trackNewest c6Recs = some "2024-01-02" := rfl
  obtain ⟨hmem, hbound⟩ := h.2.1 "2024-01-02" ht
  refine ⟨ht, hmem, hbound, h.2.2.2 ?_⟩
  intro rec hr
  simp only [c6Fetch, List.mem_singleton] at hr
  rw [hr]
  rfl

/-! ## Claim C7 -/

/-- C7: when advancing the fetched stream raises an error, the run fails —
exception propagated, nothing written — exactly when nothing was collected;
with at least one collected record the run completes successfully, writing
the partial set to the output file and updating the user index. -/
theorem mainRun_error_policy (args : Args) (sinceContent : Option String)
    (fetch : Filters → FetchOutcome) (recs : List Json)
    (hf : fetch (filtersOf (effectiveDateMin args.dateMin args.sinceFile.isSome sinceContent))
        = ⟨recs, true⟩) :
    (recs = [] → mainRun args sinceContent fetch = ⟨false, none, none, none⟩) ∧
    (∀ collected newest,
      runLoop args.limit args.fieldsList recs 1 none [] = (collected, newest, false) →
      collected ≠ [] →
      (mainRun args sinceContent fetch).ok = true ∧
      (mainRun args sinceContent fetch).outputWrite
          = some (outputPath args.user, collected) ∧
      (mainRun args sinceContent fetch).indexUser = some args.user) := by
  constructor
  · intro hrecs
    subst hrecs
    simp only [mainRun, hf]
    rfl
  · intro collected newest hrun hne
    have hie : collected.isEmpty = false := by
      cases collected with
      | nil => exact absurd rfl hne
      | cons a l => rfl
    simp only [mainRun, hf]
    rw [hrun]
    simp [hie]

def c7Args : Args := ⟨"bob", 10, none, none, none⟩

/-- A stream that raises before yielding anything. -/
def c7FetchFail : Filters → FetchOutcome := fun _ => ⟨[], true⟩

/-- A stream that yields one record and then raises. -/
def c7FetchPartial : Filters → FetchOutcome :=
  fun _ => ⟨[Json.obj [("id", Json.num 5)]], true⟩

theorem mainRun_error_policy_witness :
    mainRun c7Args none c7FetchFail = ⟨false, none, none, none⟩ ∧
    (mainRun c7Args none c7FetchPartial).ok = true ∧
    (mainRun c7Args none c7FetchPartial).outputWrite
      = some (outputPath "bob", [Json.obj [("id", Json.num 5)]]) ∧
    (mainRun c7Args none c7FetchPartial).indexUser = some "bob" := by
  have h1 := (mainRun_error_policy c7Args none c7FetchFail [] rfl).1 rfl
  have h2 := (mainRun_error_policy c7Args none c7FetchPartial
      [Json.obj [("id", Json.num 5)]] rfl).2
      [Json.obj [("id", Json.num 5)]] none rfl (List.cons_ne_nil _ _)
  exact ⟨h1, h2.1, h2.2.1, h2.2.2⟩

/-! ## Claim C8 (corrected) -/

def c8Args : Args := ⟨"alice", 10, some "2020-01-01", none, some "sf"⟩

/-- A fetch returning a record older than the stored watermark. -/
def c8Fetch : Filters → FetchOutcome :=
  fun _ => ⟨[Json.obj [("date_filed", Json.str "2020-05-05")]], false⟩

/-- C8 counterexample: with the since-file holding 2024-06-01 and an explicit
--date_min of 2020-01-01, a run fetching a record dated 2020-05-05 overwrites
the since-file with 2020-05-05, lexicographically smaller than the stored
value — the code never compares the new watermark against the stored one. -/
theorem since_file_regression :
    read_since_file (some "2024-06-01") = some "2024-06-01" ∧
    (mainRun c8Args (some "2024-06-01") c8Fetch).sinceWrite = some ("sf", "2020-05-05") ∧
    ("2020-05-05" : String) < "2024-06-01" := by
  refine ⟨rfl, rfl, ?_⟩
  exact (pyStrLt_iff "2020-05-05" "2024-06-01").mp rfl

/-- C8 (amended): the value written to the since-file is the maximum
truncated date over the records the loop consumed, so it does not regress
whenever every fetched record's extracted date is at least the stored value
(and is strip-invariant); without that guarantee — e.g. an explicit
--date_min older than the stored watermark, or a server returning older
records — the code overwrites the since-file with the fetched maximum, which
can be smaller than the stored value. -/
theorem mainRun_since_no_regress (args : Args) (sinceContent : Option String)
    (fetch : Filters → FetchOutcome) (s0 : String)
    (hs0 : read_since_file sinceContent = some s0)
    (hmono : ∀ rec ∈ (fetch (filtersOf (effectiveDateMin args.dateMin args.sinceFile.isSome
        sinceContent))).recs,
      ∀ e, extract_date_filed rec = some e → pyStrip e = e ∧ s0 ≤ e) :
    ∀ p d, (mainRun args sinceContent fetch).sinceWrite = some (p, d) → s0 ≤ d := by
  intro p d hw
  simp only [mainRun] at hw
  split at hw
  · simp at hw
  · cases hsf : args.sinceFile with
    | none =>
      rw [hsf] at hw
      simp at hw
    | some q =>
      rw [hsf] at hw hmono
      cases hnw : (runLoop args.limit args.fieldsList
          (fetch (filtersOf (effectiveDateMin args.dateMin (some q).isSome
            sinceContent))).recs 1 none []).2.1 with
      | none =>
        rw [hnw] at hw
        simp at hw
      | some m =>
        rw [hnw] at hw
        simp only [RunResult.sinceWrite] at hw
        have hpair := Option.some.inj hw
        have hd : pyStrip m = d := congrArg Prod.snd hpair
        have hP := runLoop_newest_prop (fun e => pyStrip e = e ∧ s0 ≤ e)
            args.limit args.fieldsList
            (fetch (filtersOf (effectiveDateMin args.dateMin (some q).isSome
              sinceContent))).recs 1 none []
            (fun e he => Option.noConfusion he) hmono m hnw
        rw [← hd, hP.1]
        exact hP.2

def c8wArgs : Args := ⟨"carol", 10, none, none, some "sf"⟩

/-- A fetch returning a record newer than the stored watermark. -/
def c8wFetch : Filters → FetchOutcome :=
  fun _ => ⟨[Json.obj [("date_filed", Json.str "2025-01-01")]], false⟩

theorem mainRun_since_no_regress_witness :
    (mainRun c8wArgs (some "2024-06-01") c8wFetch).sinceWrite = some ("sf", "2025-01-01") ∧
    ("2024-06-01" : String) ≤ "2025-01-01" := by
  have hm : ∀ rec ∈ (c8wFetch (filtersOf (effectiveDateMin c8wArgs.dateMin
      c8wArgs.sinceFile.isSome (some "2024-06-01")))).recs,
      ∀ e, extract_date_filed rec = some e →
        pyStrip e = e ∧ ("2024-06-01" : String) ≤ e := by
    intro rec hr e he
    simp only [c8wFetch, List.mem_singleton] at hr
    rw [hr] at he
    rw [show extract_date_filed (Json.obj [("date_filed", Json.str "2025-01-01")])
          = some "2025-01-01" from rfl] at he
    rw [← Option.some.inj he]
    exact ⟨rfl, le_of_lt ((pyStrLt_iff "2024-06-01" "2025-01-01").mp rfl)⟩
  exact ⟨rfl, mainRun_since_no_regress c8wArgs (some "2024-06-01") c8wFetch
      "2024-06-01" rfl hm "sf" "2025-01-01" rfl⟩

/-! ## Claim C9 -/

/-- C9: with no explicit --date_min, a configured since-file whose stripped
content is the non-empty d makes the first page request carry the filter
date_filed_min = d; an explicit non-empty --date_min is used instead, the
since-file content never affecting the filter. -/
theorem effective_filter_spec (sinceContent : Option String) (d : String)
    (net : String → Nat → Outcome) (maxR : Nat) (f : ℚ) (fuel : Nat) :
    (read_since_file sinceContent = some d →
      effectiveDateMin none true sinceContent = some d ∧
      filtersOf (effectiveDateMin none true sinceContent) = [("date_filed_min", d)] ∧
      (fetchPaginated net maxR f (fuel + 1) "/opinions/"
          (filtersOf (effectiveDateMin none true sinceContent))).head?
        = some (Event.request (buildUrl "/opinions/")
            (some (filtersOf (effectiveDateMin none true sinceContent))))) ∧
    (∀ dm : String, dm ≠ "" → ∀ g : Bool,
      effectiveDateMin (some dm) g sinceContent = some dm ∧
      filtersOf (effectiveDateMin (some dm) g sinceContent) = [("date_filed_min", dm)]) := by
  constructor
  · intro hr
    have hd : d ≠ "" := by
      cases sinceContent with
      | none => cases hr
      | some c =>
        simp only [read_since_file] at hr
        by_cases hc : pyStrip c = ""
        · rw [if_pos hc] at hr
          cases hr
        · rw [if_neg hc] at hr
          rw [← Option.some.inj hr]
          exact hc
    have he : effectiveDateMin none true sinceContent = some d := by
      simp [effectiveDateMin, strTruthy, hr]
    refine ⟨he, ?_, rfl⟩
    rw [he]
    simp only [filtersOf]
    rw [if_neg hd]
  · intro dm hdm g
    have ht : strTruthy (some dm) = true := by
      simp only [strTruthy]
      rw [if_neg hdm]
    have he : effectiveDateMin (some dm) g sinceContent = some dm := by
      simp [effectiveDateMin, ht]
    refine ⟨he, ?_⟩
    rw [he]
    simp only [filtersOf]
    rw [if_neg hdm]

theorem effective_filter_spec_witness :
    filtersOf (effectiveDateMin none true (some "2024-01-01\n"))
      = [("date_filed_min", "2024-01-01")] ∧
    effectiveDateMin (some "2023-05-05") true (some "2024-01-01\n") = some "2023-05-05" ∧
    (fetchPaginated (fun _ _ => Outcome.otherFault) 6 (3 / 2) 1 "/opinions/"
        (filtersOf (effectiveDateMin none true (some "2024-01-01\n")))).head?
      = some (Event.request (buildUrl "/opinions/")
          (some [("date_filed_min", "2024-01-01")])) := by
  have h := effective_filter_spec (some "2024-01-01\n") "2024-01-01"
      (fun _ _ => Outcome.otherFault) 6 (3 / 2) 0
  have h1 := h.1 rfl
  have h2 := h.2 "2023-05-05" (by decide) true
  refine ⟨h1.2.1, h2.1, ?_⟩
  rw [h1.2.2]
  rw [h1.2.1]

/-! ## Claim C10 (corrected) -/

/-- C10 counterexample: save_jsonl opens the output file with mode "w",
truncating it — after a call on a file whose prior content was "old\n", the
file holds exactly the new serialized lines, not the prior content followed
by them. -/
theorem save_jsonl_not_append :
    save_jsonl_run "old\n" [Json.obj []] = "\x7b\x7d\n" ∧
    save_jsonl_run "old\n" [Json.obj []]
      ≠ "old\n" ++ save_jsonl_run "" [Json.obj []] := by
  have hdumps : Json.dumps (Json.obj []) = "\x7b\x7d" := by
    simp only [Json.dumps, List.attach_nil, List.map_nil]
    decide
  have h1 : save_jsonl_run "old\n" [Json.obj []] = "\x7b\x7d\n" := by
    simp only [save_jsonl_run, List.foldl_cons, List.foldl_nil, hdumps]
    decide
  have h2 : save_jsonl_run "" [Json.obj []] = "\x7b\x7d\n" := by
    simp only [save_jsonl_run, List.foldl_cons, List.foldl_nil, hdumps]
    decide
  refine ⟨h1, ?_⟩
  rw [h1, h2]
  decide

/-- C10 (amended): save_jsonl replaces the output file's content: whatever
the file held before, after the call it holds exactly one json.dumps line
per record, in order — the prior content never affects the result. -/
theorem save_jsonl_run_spec (prior1 prior2 : String) (items : List Json) :
    save_jsonl_run prior1 items = jsonlContent items ∧
    save_jsonl_run prior1 items = save_jsonl_run prior2 items := by
  have key : ∀ (its : List Json) (c : String),
      its.foldl (fun content item => content ++ Json.dumps item ++ "\n") c
        = c ++ jsonlContent its := by
    intro its
    induction its with
    | nil =>
      intro c
      simp [jsonlContent]
    | cons item rest ih =>
      intro c
      simp only [List.foldl_cons, jsonlContent]
      rw [ih]
      rw [String.append_assoc, String.append_assoc, String.append_assoc]
  constructor
  · have h := key items ""
    unfold save_jsonl_run
    rw [h]
    exact String.empty_append _
  · rfl
